import Mathlib

set_option maxHeartbeats 1000000

/-!
Shallow embedding of the job chunking, durable status tracking and result
aggregation core of the uniapp_ui repository, translated from
`src/shared/gcp_utils.py`, `src/shared/config.py`,
`src/tools/contact_scraper/ui.py` and `src/tools/company_relationship/ui.py`.
Strings are modelled as `List Char`; the blob store as a partial map from
keys to contents together with a transport-failure oracle; clock readings
are explicit arguments.
-/

/-- Opening curly brace character (written via its code point). -/
def lbrace : Char := Char.ofNat 123

/-- Closing curly brace character (written via its code point). -/
def rbrace : Char := Char.ofNat 125

/-- Decimal digit character for a value below ten. -/
def digitChar (n : Nat) : Char := Char.ofNat (48 + n)

/-- Big-endian decimal digit list of a natural number (fuel-bounded worker;
the fuel strictly exceeds the value, which is ample since each step divides
by ten). -/
def natDigitsAux : Nat → Nat → List Char
  | 0, _ => []
  | fuel + 1, n =>
    if n < 10 then [digitChar n]
    else natDigitsAux fuel (n / 10) ++ [digitChar (n % 10)]

/-- Big-endian decimal digit list of a natural number, as produced by
Python's `str`/`json.dumps` for a nonnegative integer. -/
def natDigits (n : Nat) : List Char := natDigitsAux (n + 1) n

theorem natDigitsAux_fuel_irrel : ∀ (f1 f2 m : Nat), m < f1 → m < f2 →
    natDigitsAux f1 m = natDigitsAux f2 m := by
  intro f1
  induction f1 with
  | zero => intro f2 m h1; omega
  | succ g ih =>
    intro f2 m h1 h2
    cases f2 with
    | zero => omega
    | succ h =>
      rw [natDigitsAux, natDigitsAux]
      by_cases hm : m < 10
      · rw [if_pos hm, if_pos hm]
      · rw [if_neg hm, if_neg hm]
        have hd : m / 10 < m := Nat.div_lt_self (by omega) (by omega)
        rw [ih g (m / 10) (by omega) (by omega)]
        rw [ih h (m / 10) (by omega) (by omega)]

theorem natDigits_eq (n : Nat) :
    natDigits n = if n < 10 then [digitChar n]
      else natDigits (n / 10) ++ [digitChar (n % 10)] := by
  rw [natDigits, natDigitsAux]
  by_cases hm : n < 10
  · rw [if_pos hm, if_pos hm]
  · rw [if_neg hm, if_neg hm, natDigits]
    have hd : n / 10 < n := Nat.div_lt_self (by omega) (by omega)
    rw [natDigitsAux_fuel_irrel n (n / 10 + 1) (n / 10) (by omega) (by omega)]

/-- Numeric value of a decimal digit character. -/
def digitVal (c : Char) : Nat := c.toNat - 48

/-- Decimal digit list back to a natural number (standard left fold). -/
def digitsToNat (ds : List Char) : Nat := ds.foldl (fun a c => a * 10 + digitVal c) 0

theorem digitVal_digitChar {d : Nat} (h : d < 10) : digitVal (digitChar d) = d := by
  interval_cases d <;> decide

theorem digitChar_isDigit {d : Nat} (h : d < 10) : (digitChar d).isDigit = true := by
  interval_cases d <;> decide

theorem natDigits_ne_nil (n : Nat) : natDigits n ≠ [] := by
  rw [natDigits_eq]
  split <;> simp

theorem natDigits_all_isDigit (n : Nat) : ∀ c ∈ natDigits n, c.isDigit = true := by
  induction n using Nat.strong_induction_on with
  | _ n ih =>
    rw [natDigits_eq]
    split
    · intro c hc
      simp only [List.mem_singleton] at hc
      subst hc
      exact digitChar_isDigit (by omega)
    · intro c hc
      rcases List.mem_append.mp hc with h1 | h2
      · exact ih (n / 10) (Nat.div_lt_self (by omega) (by omega)) c h1
      · simp only [List.mem_singleton] at h2
        subst h2
        exact digitChar_isDigit (Nat.mod_lt _ (by omega))

theorem digitsToNat_append_one (ds : List Char) (c : Char) :
    digitsToNat (ds ++ [c]) = digitsToNat ds * 10 + digitVal c := by
  simp [digitsToNat, List.foldl_append]

theorem digitsToNat_natDigits (n : Nat) : digitsToNat (natDigits n) = n := by
  induction n using Nat.strong_induction_on with
  | _ n ih =>
    rw [natDigits_eq]
    split
    · rename_i h
      simp [digitsToNat, digitVal_digitChar h]
    · rename_i h
      rw [digitsToNat_append_one, ih (n / 10) (Nat.div_lt_self (by omega) (by omega)),
        digitVal_digitChar (Nat.mod_lt _ (by omega))]
      omega

/-- Signed decimal digit list of an integer, as produced by Python for ints. -/
def intDigits (n : Int) : List Char :=
  if n < 0 then '-' :: natDigits n.natAbs else natDigits n.natAbs

/-- JSON values appearing in this system's records: strings, integers,
floats (integer part and fractional digit value; only the type tag matters
to the embedded code), booleans and null. Mirrors the Python values that
`json.loads` produces for ledger and status records. -/
inductive JVal : Type where
  | jstr : List Char → JVal
  | jint : Int → JVal
  | jfloat : Int → Nat → JVal
  | jbool : Bool → JVal
  | jnull : JVal
deriving DecidableEq

/-- A JSON object (Python dict after `json.loads`), as a key/value list. -/
abbrev JObj : Type := List (List Char × JVal)

/-- Python `dict.get`: the last binding of a key wins (as in `json.loads`
with duplicate keys). -/
def dictGet (r : JObj) (k : List Char) : Option JVal :=
  r.foldl (fun acc p => if p.1 = k then some p.2 else acc) none

/-- Python `dict[key] = v`: replace an existing binding, else append. -/
def dictSet (r : JObj) (k : List Char) (v : JVal) : JObj :=
  if r.any (fun p => p.1 = k) then r.map (fun p => if p.1 = k then (k, v) else p)
  else r ++ [(k, v)]

/-- Serialization of a JSON value in compact form (the embedding's canonical
form of what workers write into the ledger; whitespace-free, no escape
sequences — the safety predicates below restrict records to this subset). -/
def serVal : JVal → List Char
  | .jstr s => '"' :: s ++ ['"']
  | .jint n => intDigits n
  | .jfloat i f => intDigits i ++ '.' :: natDigits f
  | .jbool true => ['t', 'r', 'u', 'e']
  | .jbool false => ['f', 'a', 'l', 's', 'e']
  | .jnull => ['n', 'u', 'l', 'l']

/-- Serialization of one `"key":value` member. -/
def serPair (p : List Char × JVal) : List Char :=
  '"' :: p.1 ++ '"' :: ':' :: serVal p.2

/-- Comma-separated member list of an object body. -/
def serPairs : JObj → List Char
  | [] => []
  | [p] => serPair p
  | p :: q :: r => serPair p ++ ',' :: serPairs (q :: r)

/-- Serialization of a whole JSON object record. -/
def serObj (r : JObj) : List Char := lbrace :: serPairs r ++ [rbrace]

/-- Characters allowed inside serialized keys and string values: no quote,
no backslash, no newline (so no escape sequences arise and the ledger's
brace/newline splicing cannot fire inside a record). -/
def safeChar (c : Char) : Bool :=
  !(c = '"' || c = '\\' || c = '\n')

/-- Values whose compact serialization round-trips through the parser. -/
def safeVal : JVal → Bool
  | .jstr s => s.all safeChar
  | .jfloat _ _ => false
  | _ => true

/-- Records whose keys and values are all safe. -/
def safeRecord (r : JObj) : Bool :=
  r.all (fun p => p.1.all safeChar && safeVal p.2)

/-- Parse a JSON string body up to (and consuming) the closing quote. -/
def parseStringBody (cs : List Char) : Option (List Char × List Char) :=
  let body := cs.takeWhile (fun c => !(c = '"'))
  match cs.dropWhile (fun c => !(c = '"')) with
  | '"' :: rest => some (body, rest)
  | _ => none

/-- Parse a decimal natural number (one or more digits). -/
def parseNatNum (cs : List Char) : Option (Nat × List Char) :=
  let ds := cs.takeWhile Char.isDigit
  if ds.isEmpty then none
  else some (digitsToNat ds, cs.dropWhile Char.isDigit)

/-- Parse one flat JSON value (string, integer, boolean or null; a float or
anything else is rejected, which the caller turns into the `[]` fallback). -/
def parseVal (cs : List Char) : Option (JVal × List Char) :=
  match cs with
  | [] => none
  | c :: rest =>
    if c = '"' then (parseStringBody rest).map (fun p => (.jstr p.1, p.2))
    else if c = '-' then (parseNatNum rest).map (fun p => (.jint (-(p.1 : Int)), p.2))
    else if c.isDigit then (parseNatNum cs).map (fun p => (.jint ((p.1 : Int)), p.2))
    else if ['t', 'r', 'u', 'e'].isPrefixOf cs then some (.jbool true, cs.drop 4)
    else if ['f', 'a', 'l', 's', 'e'].isPrefixOf cs then some (.jbool false, cs.drop 5)
    else if ['n', 'u', 'l', 'l'].isPrefixOf cs then some (.jnull, cs.drop 4)
    else none

/-- Parse one `"key":value` member. -/
def parsePair (cs : List Char) : Option ((List Char × JVal) × List Char) :=
  match cs with
  | c :: rest =>
    if c = '"' then
      match parseStringBody rest with
      | some (k, r1) =>
        match r1 with
        | c2 :: r2 =>
          if c2 = ':' then (parseVal r2).map (fun p => ((k, p.1), p.2))
          else none
        | [] => none
      | none => none
    else none
  | [] => none

/-- Parse the member list of an object after the opening brace, up to and
consuming the closing brace (fuel bounds the number of members). -/
def parsePairs (fuel : Nat) (cs : List Char) : Option (JObj × List Char) :=
  match fuel with
  | 0 => none
  | fuel + 1 =>
    match parsePair cs with
    | none => none
    | some (p, rest) =>
      match rest with
      | c :: r2 =>
        if c = rbrace then some ([p], r2)
        else if c = ',' then
          (parsePairs fuel r2).map (fun q => (p :: q.1, q.2))
        else none
      | [] => none

/-- Parse one JSON object, consuming its closing brace. -/
def parseObj (fuel : Nat) (cs : List Char) : Option (JObj × List Char) :=
  match cs with
  | c :: rest =>
    if c = lbrace then
      match rest with
      | c2 :: r2 => if c2 = rbrace then some ([], r2) else parsePairs fuel rest
      | [] => none
    else none
  | [] => none

/-- Parse the element list of an array of objects after the opening bracket,
up to and consuming the closing bracket. -/
def parseArrItems (fuel : Nat) (cs : List Char) : Option (List JObj × List Char) :=
  match fuel with
  | 0 => none
  | fuel + 1 =>
    match parseObj fuel cs with
    | none => none
    | some (o, rest) =>
      match rest with
      | c :: r2 =>
        if c = ']' then some ([o], r2)
        else if c = ',' then
          (parseArrItems fuel r2).map (fun q => (o :: q.1, q.2))
        else none
      | [] => none

/-- The embedding of `json.loads` on an array of flat records: the whole
input must be consumed. Returns `none` where `json.loads` raises. -/
def jsonLoadsArr (fuel : Nat) (cs : List Char) : Option (List JObj) :=
  match cs with
  | c :: rest =>
    if c = '[' then
      match rest with
      | c2 :: r2 =>
        if c2 = ']' then (if r2.isEmpty then some [] else none)
        else
          match parseArrItems fuel rest with
          | some (objs, r3) => if r3.isEmpty then some objs else none
          | none => none
      | [] => none
    else none
  | [] => none

/-- The embedding of `json.loads` on a single object record (used for the
per-job status files): the whole input must be consumed. -/
def jsonLoadsObj (fuel : Nat) (cs : List Char) : Option JObj :=
  match parseObj fuel cs with
  | some (o, rest) => if rest.isEmpty then some o else none
  | none => none

theorem takeWhile_append_all {p : Char → Bool} (l r : List Char)
    (hl : ∀ c ∈ l, p c = true) (hr : ∀ c, r.head? = some c → p c = false) :
    (l ++ r).takeWhile p = l := by
  induction l with
  | nil =>
    simp only [List.nil_append]
    cases r with
    | nil => rfl
    | cons c rest => simp [List.takeWhile_cons, hr c rfl]
  | cons c l ih =>
    simp only [List.cons_append, List.takeWhile_cons, hl c (by simp)]
    simp [ih (fun d hd => hl d (by simp [hd]))]

theorem dropWhile_append_all {p : Char → Bool} (l r : List Char)
    (hl : ∀ c ∈ l, p c = true) (hr : ∀ c, r.head? = some c → p c = false) :
    (l ++ r).dropWhile p = r := by
  induction l with
  | nil =>
    simp only [List.nil_append]
    cases r with
    | nil => rfl
    | cons c rest => simp [List.dropWhile_cons, hr c rfl]
  | cons c l ih =>
    simp only [List.cons_append, List.dropWhile_cons, hl c (by simp)]
    exact ih (fun d hd => hl d (by simp [hd]))

theorem parseStringBody_ser (s rest : List Char) (hs : s.all safeChar = true) :
    parseStringBody (s ++ '"' :: rest) = some (s, rest) := by
  have hall : ∀ c ∈ s, (!(c = '"' : Bool)) = true := by
    intro c hc
    have := List.all_eq_true.mp hs c hc
    simp only [safeChar] at this
    simp only [Bool.not_eq_true']
    by_contra hne
    simp only [Bool.not_eq_false, decide_eq_true_eq] at hne
    subst hne
    simp at this
  have hhead : ∀ c, ('"' :: rest).head? = some c → (!(c = '"' : Bool)) = false := by
    intro c hc
    simp only [List.head?_cons, Option.some.injEq] at hc
    simp [← hc]
  unfold parseStringBody
  rw [takeWhile_append_all s ('"' :: rest) hall hhead,
      dropWhile_append_all s ('"' :: rest) hall hhead]
  simp

theorem parseNatNum_natDigits (n : Nat) (rest : List Char)
    (hr : ∀ c, rest.head? = some c → c.isDigit = false) :
    parseNatNum (natDigits n ++ rest) = some (n, rest) := by
  unfold parseNatNum
  rw [takeWhile_append_all (natDigits n) rest (natDigits_all_isDigit n) hr,
      dropWhile_append_all (natDigits n) rest (natDigits_all_isDigit n) hr]
  simp [List.isEmpty_iff, natDigits_ne_nil n, digitsToNat_natDigits]

theorem natDigits_head_not_special (n : Nat) :
    ∃ d t, natDigits n = d :: t ∧ d.isDigit = true ∧ d ≠ '"' ∧ d ≠ '-' := by
  cases h : natDigits n with
  | nil => exact absurd h (natDigits_ne_nil n)
  | cons d t =>
    refine ⟨d, t, rfl, ?_, ?_, ?_⟩
    · exact natDigits_all_isDigit n d (by simp [h])
    · intro hq
      have := natDigits_all_isDigit n d (by simp [h])
      rw [hq] at this
      simp [Char.isDigit] at this
    · intro hq
      have := natDigits_all_isDigit n d (by simp [h])
      rw [hq] at this
      simp [Char.isDigit] at this

theorem parseVal_cons_quote (cs : List Char) :
    parseVal ('"' :: cs) = (parseStringBody cs).map (fun p => (JVal.jstr p.1, p.2)) := by
  simp [parseVal]

theorem parseVal_cons_minus (cs : List Char) :
    parseVal ('-' :: cs) = (parseNatNum cs).map (fun p => (JVal.jint (-(p.1 : Int)), p.2)) := by
  simp [parseVal]

theorem parseVal_cons_digit {c : Char} (h : c.isDigit = true) (cs : List Char) :
    parseVal (c :: cs) = (parseNatNum (c :: cs)).map (fun p => (JVal.jint ((p.1 : Int)), p.2)) := by
  have h1 : c ≠ '"' := by rintro rfl; simp [Char.isDigit] at h
  have h2 : c ≠ '-' := by rintro rfl; simp [Char.isDigit] at h
  simp [parseVal, h1, h2, h]

theorem parseVal_serVal (v : JVal) (rest : List Char) (hv : safeVal v = true)
    (hr : rest.head? = some ',' ∨ rest.head? = some rbrace) :
    parseVal (serVal v ++ rest) = some (v, rest) := by
  have hnd : ∀ c, rest.head? = some c → c.isDigit = false := by
    intro c hc
    rcases hr with h | h <;> rw [hc] at h <;>
      simp only [Option.some.injEq] at h <;> subst h <;> decide
  cases v with
  | jstr s =>
    have h1 : serVal (JVal.jstr s) ++ rest = '"' :: (s ++ '"' :: rest) := by
      simp [serVal]
    rw [h1, parseVal_cons_quote, parseStringBody_ser s rest (by simpa [safeVal] using hv)]
    rfl
  | jint n =>
    by_cases hn : n < 0
    · have h1 : serVal (JVal.jint n) ++ rest = '-' :: (natDigits n.natAbs ++ rest) := by
        simp [serVal, intDigits, if_pos hn]
      have h2 : (-(n.natAbs : Int)) = n := by omega
      rw [h1, parseVal_cons_minus, parseNatNum_natDigits n.natAbs rest hnd]
      simp only [Option.map_some', h2]
    · obtain ⟨d, t, hdt, hdig, _, _⟩ := natDigits_head_not_special n.natAbs
      have h1 : serVal (JVal.jint n) ++ rest = d :: (t ++ rest) := by
        simp [serVal, intDigits, if_neg hn, hdt]
      rw [h1, parseVal_cons_digit hdig, show d :: (t ++ rest) = natDigits n.natAbs ++ rest from by
        rw [hdt]; simp, parseNatNum_natDigits n.natAbs rest hnd]
      have h2 : ((n.natAbs : Int)) = n := by omega
      simp only [Option.map_some', h2]
  | jfloat i f => exact absurd (show (false : Bool) = true from hv) (by decide)
  | jbool b =>
    cases b <;> simp [serVal, parseVal, List.isPrefixOf]
  | jnull =>
    simp [serVal, parseVal, List.isPrefixOf]

theorem parsePair_cons_quote (cs : List Char) :
    parsePair ('"' :: cs) =
      match parseStringBody cs with
      | some (k, r1) =>
        match r1 with
        | c2 :: r2 =>
          if c2 = ':' then (parseVal r2).map (fun p => ((k, p.1), p.2))
          else none
        | [] => none
      | none => none := by
  simp [parsePair]

theorem parsePair_ser (p : List Char × JVal) (rest : List Char)
    (hk : p.1.all safeChar = true) (hv : safeVal p.2 = true)
    (hr : rest.head? = some ',' ∨ rest.head? = some rbrace) :
    parsePair (serPair p ++ rest) = some (p, rest) := by
  have h1 : serPair p ++ rest = '"' :: (p.1 ++ '"' :: (':' :: (serVal p.2 ++ rest))) := by
    simp [serPair]
  rw [h1, parsePair_cons_quote, parseStringBody_ser p.1 (':' :: (serVal p.2 ++ rest)) hk]
  simp only [if_pos rfl]
  rw [parseVal_serVal p.2 rest hv hr]
  rfl

theorem serPairs_cons_quote (p : List Char × JVal) (l : JObj) :
    ∃ t, serPairs (p :: l) = '"' :: t := by
  cases l with
  | nil => exact ⟨p.1 ++ '"' :: ':' :: serVal p.2, rfl⟩
  | cons q l' =>
    refine ⟨(p.1 ++ '"' :: ':' :: serVal p.2) ++ ',' :: serPairs (q :: l'), ?_⟩
    simp [serPairs, serPair]

theorem parsePairs_ser (r : JObj) : ∀ (fuel : Nat) (rest : List Char),
    r ≠ [] → r.length ≤ fuel → safeRecord r = true →
    parsePairs fuel (serPairs r ++ rbrace :: rest) = some (r, rest) := by
  induction r with
  | nil => intro fuel rest hne _ _; exact absurd rfl hne
  | cons p l ih =>
    intro fuel rest _ hfuel hsafe
    have hkv : (p.1.all safeChar = true ∧ safeVal p.2 = true) ∧ safeRecord l = true := by
      simp only [safeRecord, List.all_cons, Bool.and_eq_true] at hsafe ⊢
      exact hsafe
    obtain ⟨⟨hk, hv⟩, hsl⟩ := hkv
    cases fuel with
    | zero => simp at hfuel
    | succ f =>
      cases l with
      | nil =>
        rw [show serPairs [p] = serPair p from rfl]
        simp only [parsePairs]
        rw [parsePair_ser p (rbrace :: rest) hk hv (Or.inr rfl)]
        simp
      | cons q l' =>
        have hlen : (q :: l').length ≤ f := by simpa using hfuel
        rw [show serPairs (p :: q :: l') = serPair p ++ ',' :: serPairs (q :: l') from rfl,
          List.append_assoc, List.cons_append]
        simp only [parsePairs]
        rw [parsePair_ser p (',' :: (serPairs (q :: l') ++ rbrace :: rest)) hk hv (Or.inl rfl)]
        simp only [if_neg (show ¬(',' = rbrace) from by decide), if_pos rfl]
        rw [ih f rest (by simp) hlen hsl]
        rfl

theorem parseObj_cons (fuel : Nat) (c2 : Char) (r2 : List Char) :
    parseObj fuel (lbrace :: c2 :: r2) =
      if c2 = rbrace then some ([], r2) else parsePairs fuel (c2 :: r2) := by
  simp [parseObj]

theorem parseObj_ser (r : JObj) (fuel : Nat) (rest : List Char)
    (hfuel : r.length ≤ fuel) (hsafe : safeRecord r = true) :
    parseObj fuel (serObj r ++ rest) = some (r, rest) := by
  cases r with
  | nil =>
    simp [serObj, serPairs, parseObj]
  | cons p l =>
    obtain ⟨t, ht⟩ := serPairs_cons_quote p l
    have h1 : serObj (p :: l) ++ rest = lbrace :: ('"' :: (t ++ rbrace :: rest)) := by
      simp [serObj, ht]
    rw [h1, parseObj_cons, if_neg (show ¬('"' = rbrace) from by decide),
      show ('"' :: (t ++ rbrace :: rest)) = ('"' :: t) ++ rbrace :: rest from by simp, ← ht]
    exact parsePairs_ser (p :: l) fuel rest (by simp) hfuel hsafe

theorem length_le_length_serPairs (r : JObj) : r.length ≤ (serPairs r).length := by
  induction r with
  | nil => simp [serPairs]
  | cons p l ih =>
    cases l with
    | nil => simp [serPairs, serPair]
    | cons q l' =>
      rw [show serPairs (p :: q :: l') = serPair p ++ ',' :: serPairs (q :: l') from rfl]
      simp only [List.length_append, List.length_cons] at ih ⊢
      have : 1 ≤ (serPair p).length := by simp [serPair]
      omega

theorem length_le_length_serObj (r : JObj) : r.length ≤ (serObj r).length := by
  have := length_le_length_serPairs r
  simp only [serObj, List.length_cons, List.length_append, List.length_singleton]
  omega

theorem parseArrItems_two (r1 r2 : JObj) (fuel : Nat)
    (h1 : safeRecord r1 = true) (h2 : safeRecord r2 = true)
    (hf1 : r1.length + 1 ≤ fuel) (hf2 : r2.length + 2 ≤ fuel) :
    parseArrItems fuel (serObj r1 ++ ',' :: (serObj r2 ++ [']'])) =
      some ([r1, r2], []) := by
  cases fuel with
  | zero => omega
  | succ f =>
    simp only [parseArrItems]
    rw [parseObj_ser r1 f (',' :: (serObj r2 ++ [']'])) (by omega) h1]
    simp only [if_neg (show ¬(',' = ']') from by decide), if_pos rfl]
    cases f with
    | zero => omega
    | succ f2 =>
      simp only [parseArrItems]
      rw [parseObj_ser r2 f2 [']'] (by omega) h2]
      simp

theorem jsonLoadsArr_two (r1 r2 : JObj) (fuel : Nat)
    (h1 : safeRecord r1 = true) (h2 : safeRecord r2 = true)
    (hf1 : r1.length + 1 ≤ fuel) (hf2 : r2.length + 2 ≤ fuel) :
    jsonLoadsArr fuel ('[' :: (serObj r1 ++ ',' :: serObj r2 ++ [']'])) =
      some [r1, r2] := by
  obtain ⟨t, ht⟩ :
      ∃ t, serObj r1 ++ ',' :: serObj r2 ++ [']'] = lbrace :: t ∧
        lbrace :: t = serObj r1 ++ ',' :: (serObj r2 ++ [']']) := by
    refine ⟨serPairs r1 ++ [rbrace] ++ ',' :: serObj r2 ++ [']'], ?_, ?_⟩ <;>
      simp [serObj]
  obtain ⟨hta, htb⟩ := ht
  rw [show ('[' :: (serObj r1 ++ ',' :: serObj r2 ++ [']'])) =
      '[' :: lbrace :: t from by rw [← hta]]
  simp only [jsonLoadsArr, if_pos rfl, if_neg (show ¬(lbrace = ']') from by decide)]
  rw [show (lbrace :: t) = serObj r1 ++ ',' :: (serObj r2 ++ [']']) from htb]
  rw [parseArrItems_two r1 r2 (fuel) h1 h2 hf1 hf2]
  simp

/-- The embedding of `raw_lines.replace(` the three characters closing
brace / newline / opening brace `, ` the three characters closing brace /
comma / opening brace `)` from `fetch_central_progress`
(src/tools/contact_scraper/ui.py): a left-to-right scan replacing each
non-overlapping occurrence. -/
def insertSeps : List Char → List Char
  | c1 :: c2 :: c3 :: rest =>
    if c1 = rbrace ∧ c2 = '\n' ∧ c3 = lbrace then
      rbrace :: ',' :: lbrace :: insertSeps rest
    else c1 :: insertSeps (c2 :: c3 :: rest)
  | c :: rest => c :: insertSeps rest
  | [] => []

theorem insertSeps_cons_of_head_ne (c1 : Char) (T : List Char)
    (h : ∀ c, T.head? = some c → c ≠ '\n') :
    insertSeps (c1 :: T) = c1 :: insertSeps T := by
  match T with
  | [] => rfl
  | [c2] => rfl
  | c2 :: c3 :: r =>
    have hc2 : c2 ≠ '\n' := h c2 rfl
    rw [insertSeps]
    rw [if_neg (by rintro ⟨_, h2, _⟩; exact hc2 h2)]

theorem insertSeps_of_no_newline (s : List Char) (h : '\n' ∉ s) :
    insertSeps s = s := by
  induction s with
  | nil => rfl
  | cons c s' ih =>
    rw [insertSeps_cons_of_head_ne c s' ?_, ih (fun hm => h (by simp [hm]))]
    intro d hd hcontra
    subst hcontra
    exact h (by simp [List.mem_of_mem_head? hd])

theorem insertSeps_junction (u v : List Char) (hu : '\n' ∉ u) (hv : '\n' ∉ v) :
    insertSeps ((u ++ [rbrace]) ++ '\n' :: lbrace :: v) =
      (u ++ [rbrace]) ++ ',' :: lbrace :: v := by
  induction u with
  | nil =>
    simp only [List.nil_append, List.cons_append, List.singleton_append]
    rw [insertSeps, if_pos ⟨rfl, rfl, rfl⟩, insertSeps_of_no_newline v hv]
  | cons c1 u' ih =>
    have hu' : '\n' ∉ u' := fun hm => hu (by simp [hm])
    have hc1 : c1 ≠ '\n' := fun hc => hu (by simp [hc])
    have hstep : insertSeps (c1 :: ((u' ++ [rbrace]) ++ '\n' :: lbrace :: v)) =
        c1 :: insertSeps ((u' ++ [rbrace]) ++ '\n' :: lbrace :: v) := by
      apply insertSeps_cons_of_head_ne
      intro c hc hcontra
      subst hcontra
      cases u' with
      | nil =>
        simp only [List.nil_append, List.cons_append, List.singleton_append,
          List.head?_cons, Option.some.injEq] at hc
        exact absurd hc (by decide)
      | cons d u'' =>
        simp only [List.cons_append, List.head?_cons, Option.some.injEq] at hc
        exact hu (by simp [hc])
    calc insertSeps ((c1 :: u' ++ [rbrace]) ++ '\n' :: lbrace :: v)
        = insertSeps (c1 :: ((u' ++ [rbrace]) ++ '\n' :: lbrace :: v)) := by simp
      _ = c1 :: insertSeps ((u' ++ [rbrace]) ++ '\n' :: lbrace :: v) := hstep
      _ = c1 :: ((u' ++ [rbrace]) ++ ',' :: lbrace :: v) := by rw [ih hu']
      _ = (c1 :: u' ++ [rbrace]) ++ ',' :: lbrace :: v := by simp

theorem newline_not_mem_natDigits (n : Nat) : '\n' ∉ natDigits n := by
  intro h
  exact absurd (natDigits_all_isDigit n _ h) (by decide)

theorem newline_not_mem_serVal (v : JVal) (hv : safeVal v = true) :
    '\n' ∉ serVal v := by
  intro h
  cases v with
  | jstr s =>
    have hs : s.all safeChar = true := by simpa [safeVal] using hv
    rw [show serVal (JVal.jstr s) = '"' :: (s ++ ['"']) from rfl] at h
    rcases List.mem_cons.mp h with h | h
    · exact absurd h (by decide)
    · rcases List.mem_append.mp h with h | h
      · exact absurd (List.all_eq_true.mp hs _ h) (by decide)
      · exact absurd (List.mem_singleton.mp h) (by decide)
  | jint n =>
    rw [show serVal (JVal.jint n) = intDigits n from rfl, intDigits] at h
    by_cases hn : n < 0
    · rw [if_pos hn] at h
      rcases List.mem_cons.mp h with h | h
      · exact absurd h (by decide)
      · exact newline_not_mem_natDigits _ h
    · rw [if_neg hn] at h
      exact newline_not_mem_natDigits _ h
  | jfloat i f => exact absurd hv (by simp [safeVal])
  | jbool b => cases b <;> exact absurd h (by decide)
  | jnull => exact absurd h (by decide)

theorem newline_not_mem_serPair (p : List Char × JVal)
    (hk : p.1.all safeChar = true) (hv : safeVal p.2 = true) :
    '\n' ∉ serPair p := by
  intro h
  rw [show serPair p = '"' :: (p.1 ++ '"' :: ':' :: serVal p.2) from by simp [serPair]] at h
  rcases List.mem_cons.mp h with h | h
  · exact absurd h (by decide)
  · rcases List.mem_append.mp h with h | h
    · exact absurd (List.all_eq_true.mp hk _ h) (by decide)
    · rcases List.mem_cons.mp h with h | h
      · exact absurd h (by decide)
      · rcases List.mem_cons.mp h with h | h
        · exact absurd h (by decide)
        · exact newline_not_mem_serVal p.2 hv h

theorem newline_not_mem_serPairs (r : JObj) (hs : safeRecord r = true) :
    '\n' ∉ serPairs r := by
  induction r with
  | nil => simp [serPairs]
  | cons p l ih =>
    have hkv : (p.1.all safeChar = true ∧ safeVal p.2 = true) ∧ safeRecord l = true := by
      simp only [safeRecord, List.all_cons, Bool.and_eq_true] at hs ⊢
      exact hs
    obtain ⟨⟨hk, hv⟩, hsl⟩ := hkv
    intro h
    cases l with
    | nil => exact newline_not_mem_serPair p hk hv h
    | cons q l' =>
      rw [show serPairs (p :: q :: l') = serPair p ++ ',' :: serPairs (q :: l') from rfl] at h
      rcases List.mem_append.mp h with h | h
      · exact newline_not_mem_serPair p hk hv h
      · rcases List.mem_cons.mp h with h | h
        · exact absurd h (by decide)
        · exact ih hsl h

theorem newline_not_mem_serObj (r : JObj) (hs : safeRecord r = true) :
    '\n' ∉ serObj r := by
  intro h
  rw [show serObj r = lbrace :: (serPairs r ++ [rbrace]) from rfl] at h
  rcases List.mem_cons.mp h with h | h
  · exact absurd h (by decide)
  · rcases List.mem_append.mp h with h | h
    · exact newline_not_mem_serPairs r hs h
    · exact absurd (List.mem_singleton.mp h) (by decide)

/-- Blob store state: a partial map from object keys to contents, plus a
transport-failure oracle saying which reads raise (network errors from the
`google.cloud` client, injected per key). -/
structure World : Type where
  blobs : List Char → Option (List Char)
  failDownload : List Char → Bool

/-- Key of the shared append-only progress ledger object. -/
def progressLedgerKey : List Char := "progress.jsonl".toList

/-- `fetch_central_progress` (src/tools/contact_scraper/ui.py, inside
`main`): if the ledger object does not exist return `[]`; otherwise
download it, splice a comma between newline-adjacent records
(`raw_lines.replace` of brace-newline-brace by brace-comma-brace), wrap in
square brackets and `json.loads` the result; any exception yields `[]`
after a warning. -/
def fetch_central_progress (w : World) : List JObj :=
  match w.blobs progressLedgerKey with
  | none => []
  | some raw =>
    if w.failDownload progressLedgerKey then []
    else
      match jsonLoadsArr ((insertSeps raw).length + 2) ('[' :: (insertSeps raw ++ [']'])) with
      | some objs => objs
      | none => []

theorem insertSeps_two_records (r1 r2 : JObj)
    (h1 : safeRecord r1 = true) (h2 : safeRecord r2 = true) :
    insertSeps (serObj r1 ++ '\n' :: serObj r2) = serObj r1 ++ ',' :: serObj r2 := by
  have hu : '\n' ∉ lbrace :: serPairs r1 := by
    intro h
    rcases List.mem_cons.mp h with h | h
    · exact absurd h (by decide)
    · exact newline_not_mem_serPairs r1 h1 h
  have hv : '\n' ∉ serPairs r2 ++ [rbrace] := by
    intro h
    rcases List.mem_append.mp h with h | h
    · exact newline_not_mem_serPairs r2 h2 h
    · exact absurd (List.mem_singleton.mp h) (by decide)
  have hshape : serObj r1 ++ '\n' :: serObj r2 =
      ((lbrace :: serPairs r1) ++ [rbrace]) ++ '\n' :: lbrace :: (serPairs r2 ++ [rbrace]) := by
    simp [serObj]
  rw [hshape, insertSeps_junction (lbrace :: serPairs r1) (serPairs r2 ++ [rbrace]) hu hv]
  simp [serObj]

/-- Claim C3: two well-formed ledger records stored adjacently in the
shared progress ledger object (each record on its own line, with no JSON
separator between them) parse, after the splice that inserts a separator
between the adjacent closing/opening braces, to exactly those two
records. -/
theorem ledger_concatenation_two_records (r1 r2 : JObj) (w : World)
    (h1 : safeRecord r1 = true) (h2 : safeRecord r2 = true)
    (hb : w.blobs progressLedgerKey = some (serObj r1 ++ '\n' :: serObj r2))
    (hf : w.failDownload progressLedgerKey = false) :
    fetch_central_progress w = [r1, r2] := by
  unfold fetch_central_progress
  rw [hb, hf]
  simp only [Bool.false_eq_true, if_false]
  rw [insertSeps_two_records r1 r2 h1 h2]
  have hfuel1 : r1.length + 1 ≤ (serObj r1 ++ ',' :: serObj r2).length + 2 := by
    have := length_le_length_serObj r1
    simp only [List.length_append, List.length_cons]
    omega
  have hfuel2 : r2.length + 2 ≤ (serObj r1 ++ ',' :: serObj r2).length + 2 := by
    have := length_le_length_serObj r2
    simp only [List.length_append, List.length_cons]
    omega
  rw [show (serObj r1 ++ ',' :: serObj r2) ++ [']'] =
      serObj r1 ++ ',' :: serObj r2 ++ [']'] from by simp]
  rw [jsonLoadsArr_two r1 r2 _ h1 h2 hfuel1 hfuel2]

/-- Witness for C3 at two concrete one-field ledger records. -/
theorem ledger_concatenation_two_records_witness :
    fetch_central_progress
      { blobs := fun k => if k = progressLedgerKey
          then some (serObj [("run_id".toList, JVal.jstr "ab".toList)] ++ '\n' ::
            serObj [("run_id".toList, JVal.jstr "cd".toList)])
          else none,
        failDownload := fun _ => false } =
      [[("run_id".toList, JVal.jstr "ab".toList)],
       [("run_id".toList, JVal.jstr "cd".toList)]] :=
  ledger_concatenation_two_records
    [("run_id".toList, JVal.jstr "ab".toList)]
    [("run_id".toList, JVal.jstr "cd".toList)]
    _ (by decide) (by decide) (by simp) rfl

/-- Ledger field names. -/
def runIdField : List Char := "run_id".toList

/-- The `status` field name. -/
def statusField : List Char := "status".toList

/-- The `chunk_index` field name. -/
def chunkIndexField : List Char := "chunk_index".toList

/-- The `completed` status string. -/
def completedStr : List Char := "completed".toList

/-- `filter_records_by_run_id` (src/tools/contact_scraper/ui.py): keep the
ledger entries whose `run_id` equals the session's and whose `status` is
`completed`. -/
def filter_records_by_run_id (records : List JObj) (rid : List Char) : List JObj :=
  records.filter (fun r =>
    decide (dictGet r runIdField = some (.jstr rid)) &&
    decide (dictGet r statusField = some (.jstr completedStr)))

/-- The `isinstance(record.get("chunk_index"), int)` test together with the
value added to the seen-set: Python `bool` is a subclass of `int`, so JSON
`true`/`false` pass the test as `1`/`0`; strings, floats, null and a
missing field do not. -/
def chunkIndexInt (r : JObj) : Option Int :=
  match dictGet r chunkIndexField with
  | some (.jint n) => some n
  | some (.jbool b) => some (if b then 1 else 0)
  | _ => none

/-- The seen-chunks set built by the polling loop in
src/tools/contact_scraper/ui.py: fold over the session's records adding
each integer-typed `chunk_index` to the set once. -/
def seenChunksFold (records : List JObj) : List Int :=
  records.foldl (fun seen r =>
    match chunkIndexInt r with
    | some n => if n ∈ seen then seen else n :: seen
    | none => seen) []

/-- `completed_chunks = len(seen_chunks)` over the session's filtered
records (spec operation `count_completed_chunks`). -/
def count_completed_chunks (ledger : List JObj) (rid : List Char) : Nat :=
  (seenChunksFold (filter_records_by_run_id ledger rid)).length

theorem seenChunksFoldAux_spec (records : List JObj) : ∀ acc : List Int,
    acc.Nodup →
    (records.foldl (fun seen r =>
      match chunkIndexInt r with
      | some n => if n ∈ seen then seen else n :: seen
      | none => seen) acc).toFinset = acc.toFinset ∪ (records.filterMap chunkIndexInt).toFinset ∧
    (records.foldl (fun seen r =>
      match chunkIndexInt r with
      | some n => if n ∈ seen then seen else n :: seen
      | none => seen) acc).Nodup := by
  induction records with
  | nil =>
    intro acc hacc
    simp [hacc]
  | cons r rs ih =>
    intro acc hacc
    simp only [List.foldl_cons]
    cases hci : chunkIndexInt r with
    | none =>
      obtain ⟨hfin, hnd⟩ := ih acc hacc
      constructor
      · rw [hfin]
        simp [List.filterMap_cons, hci]
      · exact hnd
    | some n =>
      by_cases hmem : n ∈ acc
      · simp only [if_pos hmem]
        obtain ⟨hfin, hnd⟩ := ih acc hacc
        constructor
        · rw [hfin]
          simp only [List.filterMap_cons, hci, List.toFinset_cons]
          ext x
          simp only [Finset.mem_union, Finset.mem_insert, List.mem_toFinset]
          constructor
          · rintro (h | h)
            · exact Or.inl h
            · exact Or.inr (Or.inr h)
          · rintro (h | h | h)
            · exact Or.inl h
            · exact Or.inl (h ▸ hmem)
            · exact Or.inr h
        · exact hnd
      · simp only [if_neg hmem]
        obtain ⟨hfin, hnd⟩ := ih (n :: acc) (List.nodup_cons.mpr ⟨hmem, hacc⟩)
        constructor
        · rw [hfin]
          simp only [List.filterMap_cons, hci, List.toFinset_cons]
          ext x
          simp only [Finset.mem_union, Finset.mem_insert, List.mem_toFinset]
          constructor
          · rintro ((h | h) | h)
            · exact Or.inr (Or.inl h)
            · exact Or.inl h
            · exact Or.inr (Or.inr h)
          · rintro (h | h | h)
            · exact Or.inl (Or.inr h)
            · exact Or.inl (Or.inl h)
            · exact Or.inr h
        · exact hnd

theorem seenChunksFold_length (records : List JObj) :
    (seenChunksFold records).length = (records.filterMap chunkIndexInt).dedup.length := by
  obtain ⟨hfin, hnd⟩ := seenChunksFoldAux_spec records [] List.nodup_nil
  have hnd' : (seenChunksFold records).Nodup := hnd
  have hfin' : (seenChunksFold records).toFinset =
      (records.filterMap chunkIndexInt).toFinset := by
    rw [seenChunksFold, hfin]
    simp
  rw [← List.toFinset_card_of_nodup hnd', hfin', List.card_toFinset]

/-- Helper: `count_completed_chunks` equals the number of distinct
integer-typed `chunk_index` values among the session's completed records. -/
theorem count_completed_chunks_eq_card (ledger : List JObj) (rid : List Char) :
    count_completed_chunks ledger rid =
      ((filter_records_by_run_id ledger rid).filterMap chunkIndexInt).toFinset.card := by
  rw [count_completed_chunks, seenChunksFold_length, List.card_toFinset]

/-- `num_chunks = 3`, fixed in src/tools/contact_scraper/ui.py. -/
def num_chunks : Nat := 3

/-- A well-formed ledger completion entry for one run and one chunk. -/
def mkLedgerEntry (rid : List Char) (idx : Int) : JObj :=
  [(runIdField, .jstr rid), (statusField, .jstr completedStr), (chunkIndexField, .jint idx)]

/-- Claim C4 counterexample: a ledger holding completed entries of one run
for four distinct chunk indexes yields a count of 4, which exceeds the
batch's `total_chunks = num_chunks = 3` — the code applies no cap. -/
theorem count_completed_chunks_exceeds_total :
    count_completed_chunks
      [mkLedgerEntry "r1".toList 1, mkLedgerEntry "r1".toList 2,
       mkLedgerEntry "r1".toList 3, mkLedgerEntry "r1".toList 4] "r1".toList = 4 ∧
    num_chunks < 4 := by
  constructor
  · decide
  · decide

/-- Claim C4 (amended): `count_completed_chunks` returns the cardinality of
the set of distinct integer-typed `chunk_index` values among the entries
with `run_id == X` and `status == completed` — a duplicated completion
record for the same chunk counts once — but the count is not capped and
can exceed `total_chunks` (see the counterexample theorem). -/
theorem count_completed_chunks_dedups (ledger : List JObj) (rid : List Char) :
    count_completed_chunks ledger rid =
      ((filter_records_by_run_id ledger rid).filterMap chunkIndexInt).dedup.length ∧
    ∀ r : JObj, count_completed_chunks (r :: r :: ledger) rid =
      count_completed_chunks (r :: ledger) rid := by
  constructor
  · rw [count_completed_chunks, seenChunksFold_length]
  · intro r
    rw [count_completed_chunks_eq_card, count_completed_chunks_eq_card]
    rw [filter_records_by_run_id, filter_records_by_run_id]
    by_cases hp : (decide (dictGet r runIdField = some (.jstr rid)) &&
        decide (dictGet r statusField = some (.jstr completedStr))) = true
    · simp only [List.filter_cons, if_pos hp]
      cases hci : chunkIndexInt r with
      | none => simp only [List.filterMap_cons, hci]
      | some n =>
        simp only [List.filterMap_cons, hci, List.toFinset_cons, Finset.insert_idem]
    · simp only [List.filter_cons, if_neg hp]

/-- Claim C10: a ledger entry whose `chunk_index` field is not
integer-typed (a string such as a quoted digit, a float, null, or a
missing field all make `chunkIndexInt` return `none`) never contributes to
the completed-chunk count, whether or not its `run_id` and `status`
match. -/
theorem non_int_chunk_index_ignored (ledger : List JObj) (rid : List Char) (r : JObj)
    (h : chunkIndexInt r = none) :
    count_completed_chunks (r :: ledger) rid = count_completed_chunks ledger rid := by
  rw [count_completed_chunks, count_completed_chunks, seenChunksFold_length,
    seenChunksFold_length]
  rw [filter_records_by_run_id, filter_records_by_run_id, List.filter_cons]
  by_cases hp : (decide (dictGet r runIdField = some (.jstr rid)) &&
      decide (dictGet r statusField = some (.jstr completedStr))) = true
  · rw [if_pos hp, List.filterMap_cons, h]
  · rw [if_neg hp]

/-- Witness for C10: a completed, matching entry carrying the string "3"
as its chunk index leaves the count of a one-entry ledger unchanged. -/
theorem non_int_chunk_index_ignored_witness :
    chunkIndexInt [(runIdField, JVal.jstr "r1".toList),
      (statusField, JVal.jstr completedStr),
      (chunkIndexField, JVal.jstr "3".toList)] = none ∧
    count_completed_chunks
      ([(runIdField, JVal.jstr "r1".toList),
        (statusField, JVal.jstr completedStr),
        (chunkIndexField, JVal.jstr "3".toList)] ::
       [mkLedgerEntry "r1".toList 1]) "r1".toList =
      count_completed_chunks [mkLedgerEntry "r1".toList 1] "r1".toList :=
  ⟨by decide, non_int_chunk_index_ignored [mkLedgerEntry "r1".toList 1] "r1".toList
    [(runIdField, JVal.jstr "r1".toList),
     (statusField, JVal.jstr completedStr),
     (chunkIndexField, JVal.jstr "3".toList)] (by decide)⟩

/-- `total_chunks = (total_rows + chunk_size - 1) // chunk_size`
(src/tools/company_relationship/ui.py, `process_large_dataset_chunked`). -/
def total_chunks_for (n chunk_size : Nat) : Nat := (n + chunk_size - 1) / chunk_size

/-- The ordered chunk descriptors of `process_large_dataset_chunked`:
chunk `i` covers rows `[i * chunk_size, min(i * chunk_size + chunk_size, n))`. -/
def chunk_ranges (n chunk_size : Nat) : List (Nat × Nat) :=
  (List.range (total_chunks_for n chunk_size)).map
    (fun i => (i * chunk_size, min (i * chunk_size + chunk_size) n))

/-- `rows_per_chunk = -(-len(input_df) // num_chunks)` = ceil(n / 3)
(src/tools/contact_scraper/ui.py, `main`). -/
def rows_per_chunk (n : Nat) : Nat := (n + 3 - 1) / 3

/-- The chunks emitted by the contact_scraper split loop: three candidate
slices `[i * rpc, min((i + 1) * rpc, n))`, skipping empty ones. -/
def contact_chunk_ranges (n : Nat) : List (Nat × Nat) :=
  ((List.range num_chunks).map
    (fun i => (i * rows_per_chunk n, min ((i + 1) * rows_per_chunk n) n))).filter
    (fun p => decide (p.1 < p.2))

theorem lt_total_chunks_iff (n cs i : Nat) (hn : 0 < n) (hcs : 0 < cs) :
    i < total_chunks_for n cs ↔ i * cs < n := by
  rw [total_chunks_for, show i < (n + cs - 1) / cs ↔ i + 1 ≤ (n + cs - 1) / cs from Iff.rfl,
    Nat.le_div_iff_mul_le hcs, add_mul, one_mul]
  omega

theorem total_chunks_ceil (n cs : Nat) (hn : 0 < n) (hcs : 0 < cs) :
    n ≤ total_chunks_for n cs * cs ∧ total_chunks_for n cs * cs < n + cs := by
  have hd := Nat.div_add_mod (n + cs - 1) cs
  have hm : (n + cs - 1) % cs < cs := Nat.mod_lt _ hcs
  have hq : total_chunks_for n cs * cs = cs * ((n + cs - 1) / cs) := by
    rw [total_chunks_for, Nat.mul_comm]
  omega

theorem chunk_ranges_get (n cs : Nat) (i : Nat) (h : i < (chunk_ranges n cs).length) :
    (chunk_ranges n cs).get ⟨i, h⟩ = (i * cs, min (i * cs + cs) n) := by
  simp [chunk_ranges]

theorem chunk_ranges_length (n cs : Nat) :
    (chunk_ranges n cs).length = total_chunks_for n cs := by
  simp [chunk_ranges]

theorem chunk_lengths_partial_sum (n cs : Nat) (hn : 0 < n) (hcs : 0 < cs) :
    ∀ m, m ≤ total_chunks_for n cs →
      ((List.range m).map (fun i => min (i * cs + cs) n - i * cs)).sum = min (m * cs) n := by
  intro m
  induction m with
  | zero => simp
  | succ k ih =>
    intro hm
    rw [List.range_succ, List.map_append, List.sum_append, ih (by omega)]
    simp only [List.map_cons, List.map_nil, List.sum_cons, List.sum_nil]
    have hk : k * cs < n := (lt_total_chunks_iff n cs k hn hcs).mp (by omega)
    rw [add_mul, one_mul]
    omega

theorem range_filter_lt (a b : Nat) (hb : b ≤ a) :
    (List.range a).filter (fun i => decide (i < b)) = List.range b := by
  induction a with
  | zero =>
    have hb0 : b = 0 := by omega
    subst hb0
    rfl
  | succ k ih =>
    rw [List.range_succ, List.filter_append]
    by_cases hbk : b ≤ k
    · rw [ih hbk]
      have h1 : List.filter (fun i => decide (i < b)) [k] = [] := by
        simp only [List.filter_cons, List.filter_nil, decide_eq_true_eq]
        rw [if_neg (by omega)]
      rw [h1, List.append_nil]
    · have hbe : b = k + 1 := by omega
      subst hbe
      have h2 : List.filter (fun i => decide (i < k + 1)) (List.range k) = List.range k :=
        List.filter_eq_self.mpr (fun x hx => by
          simp only [decide_eq_true_eq]
          have := List.mem_range.mp hx
          omega)
      have h3 : List.filter (fun i => decide (i < k + 1)) [k] = [k] := by simp
      rw [h2, h3, ← List.range_succ]

theorem rows_per_chunk_pos (n : Nat) (hn : 0 < n) : 0 < rows_per_chunk n := by
  rw [rows_per_chunk]
  rw [show 0 < (n + 3 - 1) / 3 ↔ 1 ≤ (n + 3 - 1) / 3 from Iff.rfl,
    Nat.le_div_iff_mul_le (by omega)]
  omega

theorem contact_total_le (n : Nat) (hn : 0 < n) :
    total_chunks_for n (rows_per_chunk n) ≤ num_chunks := by
  by_contra h
  push_neg at h
  have h3 : num_chunks * rows_per_chunk n < n :=
    (lt_total_chunks_iff n (rows_per_chunk n) num_chunks hn (rows_per_chunk_pos n hn)).mp h
  have hd := Nat.div_add_mod (n + 3 - 1) 3
  have hm : (n + 3 - 1) % 3 < 3 := Nat.mod_lt _ (by omega)
  rw [show num_chunks = 3 from rfl, rows_per_chunk] at h3
  omega

theorem contact_chunk_ranges_eq (n : Nat) (hn : 0 < n) :
    contact_chunk_ranges n = chunk_ranges n (rows_per_chunk n) := by
  have hrpc := rows_per_chunk_pos n hn
  have hle := contact_total_le n hn
  rw [contact_chunk_ranges, chunk_ranges, List.filter_map]
  have hcong : ∀ i ∈ List.range num_chunks,
      ((fun p => decide (p.1 < p.2)) ∘
        (fun i => (i * rows_per_chunk n, min ((i + 1) * rows_per_chunk n) n))) i =
      (fun i => decide (i < total_chunks_for n (rows_per_chunk n))) i := by
    intro i _
    simp only [Function.comp_apply, decide_eq_decide]
    rw [lt_total_chunks_iff n (rows_per_chunk n) i hn hrpc, add_mul, one_mul]
    omega
  rw [List.filter_congr hcong,
    range_filter_lt num_chunks (total_chunks_for n (rows_per_chunk n)) hle]
  apply List.map_congr_left
  intro i _
  rw [add_mul, one_mul]

/-- Claim C1: for every row count `n > 0` and `chunk_size > 0` the chunk
planner of `process_large_dataset_chunked` produces exactly
`ceil(n/chunk_size)` ordered chunks; their half-open row ranges follow the
formula `[i*cs, min(i*cs+cs, n))`, abut with no gap or overlap, cover each
row below `n` exactly once, are never empty, never exceed `chunk_size`
rows (only the last may be smaller), and their lengths sum to `n`; the
contact_scraper split loop emits exactly the same ranges at
`chunk_size = rows_per_chunk n`. -/
theorem chunk_planner_partitions (n cs : Nat) (hn : 0 < n) (hcs : 0 < cs) :
    (chunk_ranges n cs).length = total_chunks_for n cs ∧
    (n ≤ total_chunks_for n cs * cs ∧ total_chunks_for n cs * cs < n + cs) ∧
    (∀ (i : Nat) (h : i < (chunk_ranges n cs).length),
      (chunk_ranges n cs).get ⟨i, h⟩ = (i * cs, min (i * cs + cs) n)) ∧
    (∀ (i : Nat) (h : i + 1 < (chunk_ranges n cs).length),
      ((chunk_ranges n cs).get ⟨i, Nat.lt_of_succ_lt h⟩).2 =
        ((chunk_ranges n cs).get ⟨i + 1, h⟩).1) ∧
    (∀ k, k < n → ∃! i, ∃ h : i < (chunk_ranges n cs).length,
      ((chunk_ranges n cs).get ⟨i, h⟩).1 ≤ k ∧ k < ((chunk_ranges n cs).get ⟨i, h⟩).2) ∧
    (∀ p ∈ chunk_ranges n cs, p.1 < p.2 ∧ p.2 - p.1 ≤ cs) ∧
    ((chunk_ranges n cs).map (fun p => p.2 - p.1)).sum = n ∧
    contact_chunk_ranges n = chunk_ranges n (rows_per_chunk n) := by
  refine ⟨chunk_ranges_length n cs, total_chunks_ceil n cs hn hcs, chunk_ranges_get n cs,
    ?_, ?_, ?_, ?_, contact_chunk_ranges_eq n hn⟩
  · intro i h
    have hi1 : i + 1 < total_chunks_for n cs := by
      rw [chunk_ranges_length] at h
      exact h
    have hlt := (lt_total_chunks_iff n cs (i + 1) hn hcs).mp hi1
    rw [chunk_ranges_get, chunk_ranges_get]
    rw [add_mul, one_mul] at hlt ⊢
    dsimp only
    omega
  · intro k hk
    have hda := Nat.div_add_mod k cs
    have hmod : k % cs < cs := Nat.mod_lt _ hcs
    have hcomm : (k / cs) * cs = cs * (k / cs) := Nat.mul_comm _ _
    have hlen : k / cs < (chunk_ranges n cs).length := by
      rw [chunk_ranges_length]
      exact (lt_total_chunks_iff n cs (k / cs) hn hcs).mpr (by omega)
    refine ⟨k / cs, ⟨hlen, ?_, ?_⟩, ?_⟩
    · rw [chunk_ranges_get]
      dsimp only
      omega
    · rw [chunk_ranges_get]
      dsimp only
      omega
    · intro j hj
      obtain ⟨hjlen, hjle, hjlt⟩ := hj
      rw [chunk_ranges_get] at hjle hjlt
      dsimp only at hjle hjlt
      have hj1 : j ≤ k / cs := Nat.le_div_iff_mul_le hcs |>.mpr hjle
      have hj2 : k / cs < j + 1 := by
        rw [Nat.div_lt_iff_lt_mul hcs, add_mul, one_mul]
        omega
      omega
  · intro p hp
    rw [chunk_ranges] at hp
    obtain ⟨i, hi, hpe⟩ := List.mem_map.mp hp
    have hilt : i * cs < n :=
      (lt_total_chunks_iff n cs i hn hcs).mp (List.mem_range.mp hi)
    subst hpe
    dsimp only
    omega
  · have hmap : (chunk_ranges n cs).map (fun p => p.2 - p.1) =
        (List.range (total_chunks_for n cs)).map (fun i => min (i * cs + cs) n - i * cs) := by
      rw [chunk_ranges, List.map_map]
      rfl
    rw [hmap, chunk_lengths_partial_sum n cs hn hcs _ le_rfl]
    have := total_chunks_ceil n cs hn hcs
    omega

/-- Witness for C1 at the spec scenario: 120 rows, chunk size 50. -/
theorem chunk_planner_partitions_witness :
    (chunk_ranges 120 50).length = total_chunks_for 120 50 ∧
    ((chunk_ranges 120 50).map (fun p => p.2 - p.1)).sum = 120 ∧
    contact_chunk_ranges 120 = chunk_ranges 120 (rows_per_chunk 120) :=
  ⟨(chunk_planner_partitions 120 50 (by decide) (by decide)).1,
   (chunk_planner_partitions 120 50 (by decide) (by decide)).2.2.2.2.2.2.1,
   (chunk_planner_partitions 120 50 (by decide) (by decide)).2.2.2.2.2.2.2⟩

/-- `POLL_INTERVAL = 5` seconds (src/shared/config.py). -/
def POLL_INTERVAL : Nat := 5

/-- `MAX_WAIT_TIME = 300` seconds (src/shared/config.py). -/
def MAX_WAIT_TIME : Nat := 300

/-- `monitor_job_progress` checks status at elapsed times 0, 5, 10, …, and
its `while` guard requires elapsed < MAX_WAIT_TIME, so with instantaneous
status reads it performs MAX_WAIT_TIME / POLL_INTERVAL = 60 polls before
returning the synthetic timeout. -/
def maxPolls : Nat := MAX_WAIT_TIME / POLL_INTERVAL

/-- `status.get("status")` on a status dict. -/
def statusOf (d : JObj) : Option JVal := dictGet d statusField

/-- The `failed` status string. -/
def failedStr : List Char := "failed".toList

/-- The synthetic result of `monitor_job_progress` on timeout
(src/shared/gcp_utils.py). -/
def timeoutDict : JObj :=
  [(statusField, .jstr "timeout".toList),
   ("error".toList, .jstr "Job took too long to complete".toList)]

/-- The polling loop of `monitor_job_progress` (src/shared/gcp_utils.py):
`trace k` is the status dict observed at the k-th poll; the loop returns
the observed dict on `completed` or `failed` and the synthetic timeout
dict once the deadline passes (fuel exhausted). -/
def monitorLoop (trace : Nat → JObj) : Nat → Nat → JObj
  | 0, _ => timeoutDict
  | fuel + 1, k =>
    if statusOf (trace k) = some (.jstr completedStr) then trace k
    else if statusOf (trace k) = some (.jstr failedStr) then trace k
    else monitorLoop trace fuel (k + 1)

/-- `monitor_job_progress` itself: poll up to `maxPolls` times. -/
def monitor_job_progress (trace : Nat → JObj) : JObj := monitorLoop trace maxPolls 0

/-- The `while True` progress loop of contact_scraper `main`
(src/tools/contact_scraper/ui.py): at the k-th iteration the ledger state
is `ledgers k`, the completed count is computed, and the loop breaks only
when the count reaches `total` (`num_chunks`); there is no deadline in
the code, so the fuel here only bounds how many iterations we unfold —
`none` means the loop is still running after `fuel` polls. -/
def contactPollLoop (ledgers : Nat → List JObj) (rid : List Char) (total : Nat) :
    Nat → Nat → Option Nat
  | 0, _ => none
  | fuel + 1, k =>
    if total ≤ count_completed_chunks (ledgers k) rid then
      some (count_completed_chunks (ledgers k) rid)
    else contactPollLoop ledgers rid total fuel (k + 1)

/-- Claim C2 counterexample: with a forever-empty ledger and
total_chunks = num_chunks = 3, the contact_scraper batch loop is still
polling after 61 iterations — strictly more polls than fit in
max_wait = 300 s at 5 s intervals — and has produced no synthetic timeout
result (its only exit is the completed-count break). -/
theorem contact_poll_loop_no_timeout :
    contactPollLoop (fun _ => []) "r1".toList num_chunks 61 0 = none ∧
    MAX_WAIT_TIME < 61 * POLL_INTERVAL := by
  constructor
  · decide
  · decide

theorem monitorLoop_timeout (trace : Nat → JObj) :
    ∀ (fuel k : Nat),
      (∀ m, m < fuel → statusOf (trace (k + m)) ≠ some (.jstr completedStr) ∧
        statusOf (trace (k + m)) ≠ some (.jstr failedStr)) →
      monitorLoop trace fuel k = timeoutDict := by
  intro fuel
  induction fuel with
  | zero => intro k _; rfl
  | succ f ih =>
    intro k hterm
    have h0 := hterm 0 (by omega)
    rw [Nat.add_zero] at h0
    rw [monitorLoop, if_neg h0.1, if_neg h0.2]
    exact ih (k + 1) (fun m hm => by
      have := hterm (m + 1) (by omega)
      rw [show k + 1 + m = k + (m + 1) from by omega]
      exact this)

theorem contactPollLoop_break (ledgers : Nat → List JObj) (rid : List Char) (total : Nat) :
    ∀ (fuel k c : Nat), contactPollLoop ledgers rid total fuel k = some c →
      total ≤ c ∧ ∃ j, k ≤ j ∧ c = count_completed_chunks (ledgers j) rid := by
  intro fuel
  induction fuel with
  | zero => intro k c h; exact absurd h (by simp [contactPollLoop])
  | succ f ih =>
    intro k c h
    rw [contactPollLoop] at h
    by_cases hc : total ≤ count_completed_chunks (ledgers k) rid
    · rw [if_pos hc] at h
      obtain rfl : count_completed_chunks (ledgers k) rid = c := by
        simpa using h
      exact ⟨hc, k, le_rfl, rfl⟩
    · rw [if_neg hc] at h
      obtain ⟨hle, j, hkj, hcj⟩ := ih (k + 1) c h
      exact ⟨hle, j, by omega, hcj⟩

/-- Claim C2 (amended): `monitor_job_progress` returns the synthetic
`timeout` result when none of its `maxPolls` = max_wait/poll_interval
status reads shows `completed` or `failed` — even if the job completes
after the deadline; the contact_scraper batch loop, however, has no
max_wait: whenever it returns, the returned completed-chunk count has
reached `total_chunks`, and with a never-completing ledger it polls
forever (see the counterexample theorem). -/
theorem wait_for_terminal_timeout (trace : Nat → JObj) (ledgers : Nat → List JObj)
    (rid : List Char) (total : Nat)
    (hterm : ∀ k, k < maxPolls → statusOf (trace k) ≠ some (.jstr completedStr) ∧
      statusOf (trace k) ≠ some (.jstr failedStr)) :
    monitor_job_progress trace = timeoutDict ∧
    (∀ fuel k c, contactPollLoop ledgers rid total fuel k = some c →
      total ≤ c ∧ ∃ j, k ≤ j ∧ c = count_completed_chunks (ledgers j) rid) := by
  constructor
  · exact monitorLoop_timeout trace maxPolls 0 (fun m hm => by
      have := hterm m hm
      simpa using this)
  · exact contactPollLoop_break ledgers rid total

/-- Witness for C2 (amended) at a forever-`processing` job trace and a
ledger in which all three chunks have completed. -/
theorem wait_for_terminal_timeout_witness :
    monitor_job_progress (fun _ => [(statusField, JVal.jstr "processing".toList)]) =
      timeoutDict ∧
    (3 ≤ 3 ∧ ∃ j, 0 ≤ j ∧ 3 = count_completed_chunks
      [mkLedgerEntry "r1".toList 1, mkLedgerEntry "r1".toList 2,
       mkLedgerEntry "r1".toList 3] "r1".toList) := by
  have h := wait_for_terminal_timeout
    (fun _ => [(statusField, JVal.jstr "processing".toList)])
    (fun _ => [mkLedgerEntry "r1".toList 1, mkLedgerEntry "r1".toList 2,
      mkLedgerEntry "r1".toList 3])
    "r1".toList 3
    (fun k _ =>
      ⟨(by decide : statusOf [(statusField, JVal.jstr "processing".toList)] ≠
          some (JVal.jstr completedStr)),
       (by decide : statusOf [(statusField, JVal.jstr "processing".toList)] ≠
          some (JVal.jstr failedStr))⟩)
  exact ⟨h.1, h.2 1 0 3 (by decide)⟩

/-- The collection loop of `process_large_dataset_chunked`
(src/tools/company_relationship/ui.py): fold over per-chunk outcomes in
chunk order, appending each completed chunk's downloaded rows to
`all_results` and counting `successful_chunks` / `failed_chunks`
(`none` covers a failed, timed-out, upload-failed or resultless chunk). -/
def companyChunkLoop {α : Type} (outcomes : List (Option (List α))) :
    List (List α) × Nat × Nat :=
  outcomes.foldl (fun acc o =>
    match o with
    | some rows => (acc.1 ++ [rows], acc.2.1 + 1, acc.2.2)
    | none => (acc.1, acc.2.1, acc.2.2 + 1)) ([], 0, 0)

/-- Result of the merge tail of `process_large_dataset_chunked`: either the
concatenated artifact with its successful/total chunk counts, or the
explicit "No chunks processed successfully" error. -/
inductive MergeResult (α : Type) : Type where
  | combined : List α → Nat → Nat → MergeResult α
  | noChunksError : MergeResult α
deriving DecidableEq

/-- `process_large_dataset_chunked` after all chunks reached a terminal
state: `pd.concat(all_results)` in chunk order when any chunk succeeded,
else the error branch. -/
def process_large_dataset_chunked {α : Type} (outcomes : List (Option (List α))) :
    MergeResult α :=
  let r := companyChunkLoop outcomes
  if r.1.isEmpty then .noChunksError
  else .combined r.1.flatten r.2.1 outcomes.length

/-- Python's `pattern in name` substring test. -/
def containsSub (pat s : List Char) : Bool :=
  match s with
  | [] => pat.isEmpty
  | _ :: t => pat.isPrefixOf s || containsSub pat t

/-- `merge_csvs` (src/tools/contact_scraper/ui.py): concatenate, in the
/tmp directory-listing order given, the rows of every listed file whose
name ends in ".csv" and contains the pattern. -/
def merge_csvs {α : Type} (pattern : List Char)
    (tmpFiles : List (List Char × List α)) : List α :=
  ((tmpFiles.filter
    (fun f => (".csv".toList).isSuffixOf f.1 && containsSub pattern f.1)).map
      Prod.snd).flatten

/-- The observable outcome of the contact_scraper merge section: the two
merged frames, whether each artifact was written (skipped when empty),
and the unconditional `merge_success = True`. -/
structure ContactMergeOut (α : Type) : Type where
  successRows : List α
  failureRows : List α
  wroteSuccess : Bool
  wroteFailure : Bool
  mergeSuccess : Bool
deriving DecidableEq

/-- The merge section of contact_scraper `main` after the progress loop. -/
def contactMergePhase {α : Type} (tmpFiles : List (List Char × List α)) :
    ContactMergeOut α :=
  let s := merge_csvs ("result_".toList) tmpFiles
  let f := merge_csvs ("failures_".toList) tmpFiles
  { successRows := s, failureRows := f,
    wroteSuccess := !s.isEmpty, wroteFailure := !f.isEmpty, mergeSuccess := true }

theorem companyChunkLoopAux {α : Type} (outcomes : List (Option (List α))) :
    ∀ acc : List (List α) × Nat × Nat,
      outcomes.foldl (fun acc o =>
        match o with
        | some rows => (acc.1 ++ [rows], acc.2.1 + 1, acc.2.2)
        | none => (acc.1, acc.2.1, acc.2.2 + 1)) acc =
      (acc.1 ++ outcomes.filterMap id,
       acc.2.1 + (outcomes.filter (fun o => o.isSome)).length,
       acc.2.2 + (outcomes.filter (fun o => o.isNone)).length) := by
  induction outcomes with
  | nil => intro acc; simp
  | cons o os ih =>
    intro acc
    cases o with
    | some rows =>
      rw [List.foldl_cons]
      rw [ih]
      simp [List.filterMap_cons]
      omega
    | none =>
      rw [List.foldl_cons]
      rw [ih]
      simp [List.filterMap_cons]
      omega

theorem companyChunkLoop_spec {α : Type} (outcomes : List (Option (List α))) :
    companyChunkLoop outcomes =
      (outcomes.filterMap id,
       (outcomes.filter (fun o => o.isSome)).length,
       (outcomes.filter (fun o => o.isNone)).length) := by
  rw [companyChunkLoop, companyChunkLoopAux]
  simp

/-- Claim C5 counterexample: with zero chunk result files extracted, the
contact_scraper merge phase still sets `merge_success = True` (the success
banner path) and raises no "no chunks processed successfully" error — it
merely skips writing the empty artifacts. -/
theorem contact_merge_zero_chunks_reports_success :
    contactMergePhase ([] : List (List Char × List Nat)) =
      { successRows := [], failureRows := [], wroteSuccess := false,
        wroteFailure := false, mergeSuccess := true } := by
  decide

/-- Claim C5 (amended): in company_relationship's chunked path a batch in
which zero chunks produced a result fails with the explicit
"No chunks processed successfully" error branch — the error occurs exactly
when every chunk outcome is empty, and no artifact is produced in that
branch; the contact_scraper merge instead reports success unconditionally
and only skips writing the empty artifacts (see the counterexample). -/
theorem merge_zero_chunks_error {α : Type} (outcomes : List (Option (List α)))
    (tmpFiles : List (List Char × List α)) :
    (process_large_dataset_chunked outcomes = .noChunksError ↔
      ∀ o ∈ outcomes, o = none) ∧
    (contactMergePhase tmpFiles).mergeSuccess = true ∧
    ((contactMergePhase tmpFiles).successRows = [] →
      (contactMergePhase tmpFiles).wroteSuccess = false) := by
  refine ⟨?_, rfl, ?_⟩
  · rw [process_large_dataset_chunked]
    constructor
    · intro h
      by_cases he : (companyChunkLoop outcomes).1.isEmpty
      · rw [companyChunkLoop_spec] at he
        simp only [List.isEmpty_iff] at he
        intro o ho
        exact List.filterMap_eq_nil_iff.mp he o ho
      · rw [if_neg he] at h
        exact absurd h (by simp)
    · intro h
      have he : (companyChunkLoop outcomes).1.isEmpty = true := by
        rw [companyChunkLoop_spec]
        simp only [List.isEmpty_iff]
        exact List.filterMap_eq_nil_iff.mpr h
      rw [if_pos he]
  · intro h
    simp only [contactMergePhase] at h ⊢
    rw [h]
    rfl

/-- Row slices of the dataset induced by the planner's chunk ranges
(`df.iloc[start:end]` per chunk). -/
def chunkSlices {α : Type} (rows : List α) (chunk_size : Nat) : List (List α) :=
  (chunk_ranges rows.length chunk_size).map
    (fun p => (rows.drop p.1).take (p.2 - p.1))

theorem chunk_slices_partial_flatten {α : Type} (rows : List α) (cs : Nat)
    (hn : 0 < rows.length) (hcs : 0 < cs) :
    ∀ m, m ≤ total_chunks_for rows.length cs →
      ((List.range m).map
        (fun i => (rows.drop (i * cs)).take (min (i * cs + cs) rows.length - i * cs))).flatten
        = rows.take (min (m * cs) rows.length) := by
  intro m
  induction m with
  | zero => simp
  | succ k ih =>
    intro hm
    rw [List.range_succ, List.map_append, List.flatten_append, ih (by omega)]
    simp only [List.map_cons, List.map_nil, List.flatten_cons, List.flatten_nil,
      List.append_nil]
    have hk : k * cs < rows.length :=
      (lt_total_chunks_iff rows.length cs k hn hcs).mp (by omega)
    rw [show min (k * cs) rows.length = k * cs from by omega]
    rw [← List.take_add rows (k * cs) (min (k * cs + cs) rows.length - k * cs)]
    congr 1
    rw [add_mul, one_mul]
    omega

theorem chunkSlices_flatten {α : Type} (rows : List α) (cs : Nat)
    (hn : 0 < rows.length) (hcs : 0 < cs) :
    (chunkSlices rows cs).flatten = rows := by
  have hmap : chunkSlices rows cs =
      (List.range (total_chunks_for rows.length cs)).map
        (fun i => (rows.drop (i * cs)).take (min (i * cs + cs) rows.length - i * cs)) := by
    rw [chunkSlices, chunk_ranges, List.map_map]
    rfl
  rw [hmap, chunk_slices_partial_flatten rows cs hn hcs _ le_rfl]
  have := total_chunks_ceil rows.length cs hn hcs
  rw [show min (total_chunks_for rows.length cs * cs) rows.length = rows.length from by omega,
    List.take_length]

/-- Claim C6 counterexample: the contact_scraper merge concatenates the
extracted chunk result CSVs in the given /tmp directory-listing order, not
chunk order: when the listing places chunk 2's file before chunk 1's, all
of chunk 2's rows precede chunk 1's in the merged artifact. -/
theorem merge_csvs_listing_order :
    merge_csvs ("result_".toList)
      [("result_2.csv".toList, ([20, 21] : List Nat)),
       ("result_1.csv".toList, ([10, 11] : List Nat))] = [20, 21, 10, 11] ∧
    ([20, 21, 10, 11] : List Nat) ≠ [10, 11, 20, 21] := by
  constructor
  · decide
  · decide

/-- Claim C6 (amended): the company_relationship chunked merge concatenates
the rows of the completed chunks preserving chunk order — over any chunk
outcomes the artifact is the flattening of the completed chunks' rows in
order, and a fully successful batch over the planner's slices reproduces
the dataset's rows in their original order with successful = total
chunks; the contact_scraper merge instead concatenates result files in
directory-listing order, which need not be chunk order (see the
counterexample theorem). -/
theorem merge_preserves_chunk_order {α : Type} (rows : List α) (cs : Nat)
    (hcs : 0 < cs) (hn : 0 < rows.length) :
    process_large_dataset_chunked ((chunkSlices rows cs).map some) =
      .combined rows (total_chunks_for rows.length cs) (total_chunks_for rows.length cs) ∧
    ∀ outcomes : List (Option (List α)),
      process_large_dataset_chunked outcomes = .noChunksError ∨
      process_large_dataset_chunked outcomes =
        .combined (outcomes.filterMap id).flatten
          ((outcomes.filter (fun o => o.isSome)).length) outcomes.length := by
  constructor
  · have hfm : ((chunkSlices rows cs).map some).filterMap id = chunkSlices rows cs := by
      rw [List.filterMap_map]
      simp
    have hne : ¬((chunkSlices rows cs).map some).filterMap id = [] := by
      rw [hfm]
      intro h
      have := chunkSlices_flatten rows cs hn hcs
      rw [h] at this
      simp only [List.flatten_nil] at this
      rw [← this] at hn
      simp at hn
    rw [process_large_dataset_chunked, companyChunkLoop_spec]
    rw [if_neg (by simpa [List.isEmpty_iff] using hne)]
    have hlen : (chunkSlices rows cs).length = total_chunks_for rows.length cs := by
      rw [chunkSlices, List.length_map, chunk_ranges_length]
    have hfilter : (((chunkSlices rows cs).map some).filter (fun o => o.isSome)).length =
        total_chunks_for rows.length cs := by
      rw [List.filter_eq_self.mpr (by
        intro o ho
        obtain ⟨x, _, rfl⟩ := List.mem_map.mp ho
        rfl)]
      rw [List.length_map, hlen]
    simp only [hfm, hfilter, List.length_map, hlen]
    rw [chunkSlices_flatten rows cs hn hcs]
  · intro outcomes
    rw [process_large_dataset_chunked, companyChunkLoop_spec]
    by_cases he : (outcomes.filterMap id).isEmpty
    · left
      simp only [he]
      rfl
    · right
      simp only [he]
      rfl

/-- Witness for C6 (amended): five rows in chunks of two merge back to the
original row order with 3/3 chunks successful. -/
theorem merge_preserves_chunk_order_witness :
    process_large_dataset_chunked ((chunkSlices ([1, 2, 3, 4, 5] : List Nat) 2).map some) =
      .combined [1, 2, 3, 4, 5] 3 3 := by
  have h := (merge_preserves_chunk_order ([1, 2, 3, 4, 5] : List Nat) 2
    (by decide) (by decide)).1
  rw [h]
  rfl

/-- Witness for C5 (amended): a two-chunk batch with no results hits the
error branch, and an empty /tmp listing writes no success artifact. -/
theorem merge_zero_chunks_error_witness :
    process_large_dataset_chunked ([none, none] : List (Option (List Nat))) =
      .noChunksError ∧
    (contactMergePhase ([] : List (List Char × List Nat))).mergeSuccess = true ∧
    (contactMergePhase ([] : List (List Char × List Nat))).wroteSuccess = false := by
  have h := merge_zero_chunks_error ([none, none] : List (Option (List Nat)))
    ([] : List (List Char × List Nat))
  exact ⟨h.1.mpr (by decide), h.2.1, h.2.2 (by decide)⟩

/-- A clock reading as taken by `datetime.now()`: calendar fields plus the
microsecond component that `strftime("%Y%m%d_%H%M%S")` discards. -/
structure PyDatetime : Type where
  year : Nat
  month : Nat
  day : Nat
  hour : Nat
  minute : Nat
  second : Nat
  micro : Nat
deriving DecidableEq

/-- Zero-padded two-digit field, as `strftime` prints `%m %d %H %M %S`. -/
def pad2 (n : Nat) : List Char := if n < 10 then '0' :: natDigits n else natDigits n

/-- Zero-padded four-digit year, as `strftime` prints `%Y`. -/
def pad4 (n : Nat) : List Char :=
  if n < 10 then '0' :: '0' :: '0' :: natDigits n
  else if n < 100 then '0' :: '0' :: natDigits n
  else if n < 1000 then '0' :: natDigits n
  else natDigits n

/-- `datetime.now().strftime("%Y%m%d_%H%M%S")`. -/
def strftimeJob (t : PyDatetime) : List Char :=
  pad4 t.year ++ pad2 t.month ++ pad2 t.day ++ '_' ::
    (pad2 t.hour ++ pad2 t.minute ++ pad2 t.second)

/-- `generate_job_id` (src/shared/gcp_utils.py): `job_` plus the
second-granular timestamp — nothing else; the clock reading is the only
input and no random suffix is appended. -/
def generate_job_id (t : PyDatetime) : List Char :=
  "job_".toList ++ strftimeJob t

/-- Claim C7 counterexample: two submissions at distinct instants inside
the same clock second (different microseconds) receive the identical
job_id `job_20250828_134757`; the id carries no random or opaque suffix
distinguishing them. -/
theorem generate_job_id_collision :
    generate_job_id ⟨2025, 8, 28, 13, 47, 57, 111111⟩ =
      generate_job_id ⟨2025, 8, 28, 13, 47, 57, 222222⟩ ∧
    (⟨2025, 8, 28, 13, 47, 57, 111111⟩ : PyDatetime) ≠
      ⟨2025, 8, 28, 13, 47, 57, 222222⟩ ∧
    generate_job_id ⟨2025, 8, 28, 13, 47, 57, 111111⟩ = "job_20250828_134757".toList := by
  refine ⟨?_, by decide, ?_⟩ <;> decide

/-- Claim C7 (amended): `generate_job_id` composes the id from `job_` and
the timestamp truncated to seconds only — no random or opaque suffix — so
any two submissions whose clock readings agree on the calendar second
(regardless of sub-second instant) receive the same job_id, and the id is
fully determined by that second. -/
theorem generate_job_id_second_granularity (t1 t2 : PyDatetime)
    (hy : t1.year = t2.year) (hmo : t1.month = t2.month) (hd : t1.day = t2.day)
    (hh : t1.hour = t2.hour) (hmi : t1.minute = t2.minute) (hs : t1.second = t2.second) :
    generate_job_id t1 = generate_job_id t2 ∧
    generate_job_id t1 = "job_".toList ++ strftimeJob t1 := by
  constructor
  · rw [generate_job_id, generate_job_id, strftimeJob, strftimeJob, hy, hmo, hd, hh, hmi, hs]
  · rfl

/-- Witness for C7 (amended) at two readings differing only in the
microsecond field. -/
theorem generate_job_id_second_granularity_witness :
    generate_job_id ⟨2025, 8, 28, 13, 47, 57, 1⟩ =
      generate_job_id ⟨2025, 8, 28, 13, 47, 57, 999999⟩ ∧
    generate_job_id ⟨2025, 8, 28, 13, 47, 57, 1⟩ =
      "job_".toList ++ strftimeJob ⟨2025, 8, 28, 13, 47, 57, 1⟩ :=
  generate_job_id_second_granularity ⟨2025, 8, 28, 13, 47, 57, 1⟩
    ⟨2025, 8, 28, 13, 47, 57, 999999⟩ rfl rfl rfl rfl rfl rfl

/-- `status/{job_id}_status.json` (folders from config.py). -/
def statusBlobKey (jobId : List Char) : List Char :=
  "status/".toList ++ jobId ++ "_status.json".toList

/-- `input/{job_id}_{filename}`. -/
def inputBlobKey (jobId filename : List Char) : List Char :=
  "input/".toList ++ jobId ++ "_".toList ++ filename

/-- `results/{job_id}_results.csv`. -/
def resultsBlobKey (jobId : List Char) : List Char :=
  "results/".toList ++ jobId ++ "_results.csv".toList

/-- `blob.upload_from_string`: store a blob under a key. -/
def putBlob (w : World) (key content : List Char) : World :=
  { w with blobs := fun k => if k = key then some content else w.blobs k }

/-- The `results_ready` field name. -/
def resultsReadyField : List Char := "results_ready".toList

/-- The `results_url` field name. -/
def resultsUrlField : List Char := "results_url".toList

/-- The `error` field name. -/
def errorField : List Char := "error".toList

/-- The status record written by `_create_status_file`
(src/shared/gcp_utils.py); both timestamps come from the same clock
reading boundary. -/
def statusRecord (jobId tool status ts : List Char) : JObj :=
  [("job_id".toList, .jstr jobId), ("tool".toList, .jstr tool),
   (statusField, .jstr status), ("timestamp".toList, .jstr ts),
   ("updated_at".toList, .jstr ts)]

/-- `_create_status_file`: serialize the record (compactly here; the code
passes indent=2, whitespace being immaterial to every reader) and store it
under the status key. -/
def create_status_file (w : World) (jobId tool status ts : List Char) : World :=
  putBlob w (statusBlobKey jobId) (serObj (statusRecord jobId tool status ts))

/-- `upload_input_file` (src/shared/gcp_utils.py): generate the job id from
the clock, upload the payload to `input/{job_id}_{filename}`, then write
the initial `pending` status record; an exception in either write is
caught and turns the result into the empty job id, leaving the store as it
was at the raise. `inputFail` / `statusFail` inject those exceptions. -/
def upload_input_file (w : World) (fileData filename : List Char)
    (t : PyDatetime) (tool ts : List Char) (inputFail statusFail : Bool) :
    World × List Char :=
  let jobId := generate_job_id t
  if inputFail then (w, [])
  else
    let w1 := putBlob w (inputBlobKey jobId filename) fileData
    if statusFail then (w1, [])
    else (create_status_file w1 jobId tool ("pending".toList) ts, jobId)

/-- `check_job_status` (src/shared/gcp_utils.py): `not_found` when the
status blob is absent; a transport failure or malformed JSON is caught by
the enclosing `except` and becomes a `{"status": "error", "error": …}`
dict; on a `completed` status the expected results object's existence sets
`results_ready` (plus `results_url` when present). -/
def check_job_status (w : World) (jobId : List Char) : JObj :=
  match w.blobs (statusBlobKey jobId) with
  | none => [(statusField, .jstr "not_found".toList)]
  | some content =>
    if w.failDownload (statusBlobKey jobId) then
      [(statusField, .jstr "error".toList),
       (errorField, .jstr "download failed".toList)]
    else
      match jsonLoadsObj (content.length + 1) content with
      | none =>
        [(statusField, .jstr "error".toList),
         (errorField, .jstr "invalid json".toList)]
      | some d =>
        if dictGet d statusField = some (.jstr completedStr) then
          match w.blobs (resultsBlobKey jobId) with
          | some _ =>
            dictSet (dictSet d resultsReadyField (.jbool true)) resultsUrlField
              (.jstr (resultsBlobKey jobId))
          | none => dictSet d resultsReadyField (.jbool false)
        else d

/-- `download_results` (src/shared/gcp_utils.py): `None` when the results
object is absent or the download raises. -/
def download_results (w : World) (jobId : List Char) : Option (List Char) :=
  match w.blobs (resultsBlobKey jobId) with
  | none => none
  | some content =>
    if w.failDownload (resultsBlobKey jobId) then none else some content

theorem statusKey_ne_inputKey (jobId filename : List Char) :
    statusBlobKey jobId ≠ inputBlobKey jobId filename := by
  intro h
  have h1 : (statusBlobKey jobId).head? = some 's' := rfl
  have h2 : (inputBlobKey jobId filename).head? = some 'i' := rfl
  rw [h, h2] at h1
  exact absurd h1 (by decide)

/-- Claim C8: when the input write succeeds but the status-record write
fails during submission (the job id being fresh, so no status blob exists
under it), the submission returns the empty job id and a subsequent
`check_job_status` for that job reports `not_found` — never `completed`
or `processing`. -/
theorem failed_status_write_not_found (w : World) (fileData filename : List Char)
    (t : PyDatetime) (tool ts : List Char)
    (hstat : w.blobs (statusBlobKey (generate_job_id t)) = none) :
    (upload_input_file w fileData filename t tool ts false true).2 = [] ∧
    check_job_status (upload_input_file w fileData filename t tool ts false true).1
      (generate_job_id t) = [(statusField, .jstr "not_found".toList)] ∧
    statusOf (check_job_status (upload_input_file w fileData filename t tool ts false true).1
      (generate_job_id t)) ≠ some (.jstr completedStr) ∧
    statusOf (check_job_status (upload_input_file w fileData filename t tool ts false true).1
      (generate_job_id t)) ≠ some (.jstr "processing".toList) := by
  have hup : upload_input_file w fileData filename t tool ts false true =
      (putBlob w (inputBlobKey (generate_job_id t) filename) fileData, []) := rfl
  have hb : (putBlob w (inputBlobKey (generate_job_id t) filename) fileData).blobs
      (statusBlobKey (generate_job_id t)) = none := by
    rw [putBlob]
    simp only []
    rw [if_neg (statusKey_ne_inputKey (generate_job_id t) filename)]
    exact hstat
  have hcheck : check_job_status
      (putBlob w (inputBlobKey (generate_job_id t) filename) fileData)
      (generate_job_id t) = [(statusField, .jstr "not_found".toList)] := by
    rw [check_job_status, hb]
  rw [hup]
  refine ⟨rfl, hcheck, ?_, ?_⟩
  · rw [hcheck]
    decide
  · rw [hcheck]
    decide

/-- Witness for C8 on an initially empty store with no transport faults. -/
theorem failed_status_write_not_found_witness :
    (upload_input_file ⟨fun _ => none, fun _ => false⟩ "data".toList "f.csv".toList
      ⟨2025, 8, 28, 13, 47, 57, 0⟩ "company_relationship".toList "ts".toList
      false true).2 = [] ∧
    check_job_status (upload_input_file ⟨fun _ => none, fun _ => false⟩ "data".toList
      "f.csv".toList ⟨2025, 8, 28, 13, 47, 57, 0⟩ "company_relationship".toList
      "ts".toList false true).1
      (generate_job_id ⟨2025, 8, 28, 13, 47, 57, 0⟩) =
      [(statusField, .jstr "not_found".toList)] ∧
    statusOf (check_job_status (upload_input_file ⟨fun _ => none, fun _ => false⟩
      "data".toList "f.csv".toList ⟨2025, 8, 28, 13, 47, 57, 0⟩
      "company_relationship".toList "ts".toList false true).1
      (generate_job_id ⟨2025, 8, 28, 13, 47, 57, 0⟩)) ≠
      some (.jstr completedStr) ∧
    statusOf (check_job_status (upload_input_file ⟨fun _ => none, fun _ => false⟩
      "data".toList "f.csv".toList ⟨2025, 8, 28, 13, 47, 57, 0⟩
      "company_relationship".toList "ts".toList false true).1
      (generate_job_id ⟨2025, 8, 28, 13, 47, 57, 0⟩)) ≠
      some (.jstr "processing".toList) :=
  failed_status_write_not_found ⟨fun _ => none, fun _ => false⟩ "data".toList
    "f.csv".toList ⟨2025, 8, 28, 13, 47, 57, 0⟩ "company_relationship".toList
    "ts".toList rfl

/-- Claim C9: every failure a core operation can detect is recovered at
that operation's boundary and becomes a typed result or status value —
status reads turn a transport failure or malformed JSON into an
`{"status": "error", …}` dict and an absent record into `not_found`;
ledger reads turn any failure into the empty record list; a failed upload
returns the empty job id; a failed or absent download returns `None`.
None of them escapes as an unhandled exception. -/
theorem failures_recovered (w : World) (jobId content raw : List Char) :
    (w.blobs (statusBlobKey jobId) = some content →
      w.failDownload (statusBlobKey jobId) = true →
      check_job_status w jobId =
        [(statusField, .jstr "error".toList),
         (errorField, .jstr "download failed".toList)]) ∧
    (w.blobs (statusBlobKey jobId) = some content →
      w.failDownload (statusBlobKey jobId) = false →
      jsonLoadsObj (content.length + 1) content = none →
      check_job_status w jobId =
        [(statusField, .jstr "error".toList),
         (errorField, .jstr "invalid json".toList)]) ∧
    (w.blobs (statusBlobKey jobId) = none →
      check_job_status w jobId = [(statusField, .jstr "not_found".toList)]) ∧
    (w.blobs progressLedgerKey = some raw →
      w.failDownload progressLedgerKey = true → fetch_central_progress w = []) ∧
    (w.blobs progressLedgerKey = some raw →
      w.failDownload progressLedgerKey = false →
      jsonLoadsArr ((insertSeps raw).length + 2) ('[' :: (insertSeps raw ++ [']'])) = none →
      fetch_central_progress w = []) ∧
    (∀ fileData filename t tool ts statusFail,
      upload_input_file w fileData filename t tool ts true statusFail = (w, [])) ∧
    (∀ fileData filename t tool ts,
      (upload_input_file w fileData filename t tool ts false true).2 = []) ∧
    (w.blobs (resultsBlobKey jobId) = none → download_results w jobId = none) ∧
    (w.failDownload (resultsBlobKey jobId) = true → download_results w jobId = none) := by
  refine ⟨?_, ?_, ?_, ?_, ?_, ?_, ?_, ?_, ?_⟩
  · intro hb hf
    rw [check_job_status, hb, hf]
    rfl
  · intro hb hf hj
    rw [check_job_status, hb, hf]
    simp only [Bool.false_eq_true, if_false]
    rw [hj]
  · intro hb
    rw [check_job_status, hb]
  · intro hb hf
    rw [fetch_central_progress, hb, hf]
    rfl
  · intro hb hf hj
    rw [fetch_central_progress, hb, hf]
    simp only [Bool.false_eq_true, if_false]
    rw [hj]
  · intro fileData filename t tool ts statusFail
    rfl
  · intro fileData filename t tool ts
    rfl
  · intro hb
    rw [download_results, hb]
  · intro hf
    rw [download_results]
    cases hb : w.blobs (resultsBlobKey jobId) with
    | none => rfl
    | some content => rw [hf]; rfl

/-- Witness for C9 at two concrete worlds: one whose every download raises
(with a malformed ledger and a status blob present), one empty store with
no faults. -/
theorem failures_recovered_witness :
    check_job_status ⟨fun _ => some "x".toList, fun _ => true⟩ "job_1".toList =
      [(statusField, .jstr "error".toList),
       (errorField, .jstr "download failed".toList)] ∧
    fetch_central_progress ⟨fun _ => some "x".toList, fun _ => true⟩ = [] ∧
    download_results ⟨fun _ => some "x".toList, fun _ => true⟩ "job_1".toList = none ∧
    check_job_status ⟨fun _ => none, fun _ => false⟩ "job_1".toList =
      [(statusField, .jstr "not_found".toList)] ∧
    download_results ⟨fun _ => none, fun _ => false⟩ "job_1".toList = none ∧
    upload_input_file ⟨fun _ => none, fun _ => false⟩ "d".toList "f.csv".toList
      ⟨2025, 1, 1, 0, 0, 0, 0⟩ "t".toList "ts".toList true false =
      (⟨fun _ => none, fun _ => false⟩, []) := by
  have h1 := failures_recovered ⟨fun _ => some "x".toList, fun _ => true⟩
    "job_1".toList "x".toList "x".toList
  have h2 := failures_recovered ⟨fun _ => none, fun _ => false⟩
    "job_1".toList "x".toList "x".toList
  exact ⟨h1.1 rfl rfl, h1.2.2.2.1 rfl rfl, h1.2.2.2.2.2.2.2.2 rfl,
    h2.2.2.1 rfl, h2.2.2.2.2.2.2.2.1 rfl,
    h2.2.2.2.2.2.1 "d".toList "f.csv".toList ⟨2025, 1, 1, 0, 0, 0, 0⟩
      "t".toList "ts".toList false⟩
